import Mathlib

/-!
Shallow embedding of the panel-feedback request bridge.

Two components are modelled, following the source:

* the stdio wrapper (Transport Front): `getTargetPort` is elided (pure file
  read); `pollForResult` and `handleToolCall` are embedded with the network
  modelled as an explicit list of poll outcomes, one per HTTP round trip,
  each annotated with the wall-clock duration (ms) of that round trip.
  `sleep(POLL_INTERVAL)` advances elapsed time by exactly its nominal
  500 ms, as a `setTimeout` timer firing on schedule; only the HTTP round
  trips take arbitrary time.  The infinite `while` loop is driven by the
  finite outcome list as fuel; running out of fuel yields the distinguished
  `PollResult.outOfFuel`, representing an execution observed only up to
  that point.

* the extension-side MCP server (Coordination Service): the `Map` of
  pending requests is embedded as an insertion-ordered association list
  (`Ledger`), `context.globalState` persistence as the explicit list of
  values handed to `globalState.update`, and the asynchronous
  `processRequest` dispatch as the request value(s) returned to the caller.

`JSON.parse` in `parseResponse` is modelled by an explicit
`Option JVal` argument: `none` when `JSON.parse(feedback)` throws,
`some j` when it yields the value `j` (JSON numbers are modelled as
integers; the claims only involve integral values).
-/

/-- A JSON value as produced by `JSON.parse`.  Objects produced by parsing
have unique keys (later duplicates overwrite earlier ones during parsing),
so field lookup may use the first match. -/
inductive JVal where
  | str (s : String)
  | num (n : Int)
  | bool (b : Bool)
  | null
  | arr (elems : List JVal)
  | obj (fields : List (String × JVal))

/-- JavaScript truthiness of a JSON value (`if (v)`). -/
def truthy : JVal → Bool
  | JVal.str s => !s.isEmpty
  | JVal.num n => n != 0
  | JVal.bool b => b
  | JVal.null => false
  | JVal.arr _ => true
  | JVal.obj _ => true

/-- Outcome of a JavaScript property access `v.k`. -/
inductive AccessResult where
  | undef
  | val (j : JVal)
  | throws

/-- JavaScript property access on a parsed JSON value: `null.k` throws a
`TypeError`; an object yields the field or `undefined`; primitives and
arrays yield `undefined` (no own property named `text`/`images`). -/
def jsGet : JVal → String → AccessResult
  | JVal.null, _ => AccessResult.throws
  | JVal.obj fields, k =>
      match fields.find? (fun p => p.1 = k) with
      | some p => AccessResult.val p.2
      | none => AccessResult.undef
  | _, _ => AccessResult.undef

/-- A content block of a tool result: `{type:'text',text}` or
`{type:'image',data,mimeType}`.  The `text` field is a `JVal` because
`parseResponse` pushes `parsed.text` unchanged, whatever its JSON type. -/
inductive ContentBlock where
  | text (t : JVal)
  | image (data : String) (mimeType : String)

/-- The `request.result` payload: `{ content }`. -/
structure ResultData where
  content : List ContentBlock

/-- Strip an exact literal off the front of a character list
(`none` when the literal is not a prefix). -/
def stripLit : List Char → List Char → Option (List Char)
  | [], cs => some cs
  | _ :: _, [] => none
  | l :: ls, c :: cs => if c = l then stripLit ls cs else none

/-- Split a character list at its first `';'`:
the characters before it and the characters after it. -/
def splitFirstSemi : List Char → Option (List Char × List Char)
  | [] => none
  | c :: cs =>
      if c = ';' then some ([], cs)
      else
        match splitFirstSemi cs with
        | some p => some (c :: p.1, p.2)
        | none => none

/-- A JavaScript regexp line terminator, which `.` does not match. -/
def isLineTerm (c : Char) : Bool :=
  c = '\n' || c = '\r' || c = '\u2028' || c = '\u2029'

/-- The regexp `^data:([^;]+);base64,(.+)$` of `parseResponse`:
on a match, returns (mime type, base64 payload). -/
def dataUriMatch (s : String) : Option (String × String) :=
  match stripLit "data:".data s.data with
  | none => none
  | some rest =>
    match splitFirstSemi rest with
    | none => none
    | some mp =>
      if mp.1.isEmpty then none
      else
        match stripLit "base64,".data mp.2 with
        | none => none
        | some payload =>
          if payload.isEmpty then none
          else if payload.any isLineTerm then none
          else some (String.mk mp.1, String.mk payload)

/-- The image block a single `images` element yields, if any:
`{type:'image', data: match[2], mimeType: match[1]}`. -/
def imageBlockOf (s : String) : Option ContentBlock :=
  (dataUriMatch s).map (fun mp => ContentBlock.image mp.2 mp.1)

/-- The `for (const imageDataUrl of parsed.images)` loop of
`parseResponse`: pushes an image block per matching data URI, skips
non-matching strings, and throws (`Bool` component `true`) on the first
non-string element, whose `.match` raises a `TypeError`; blocks pushed
before the throw are kept, since `content.push` mutates in place. -/
def processImages : List JVal → List ContentBlock → List ContentBlock × Bool
  | [], acc => (acc, false)
  | JVal.str s :: rest, acc =>
      match dataUriMatch s with
      | some mp => processImages rest (acc ++ [ContentBlock.image mp.2 mp.1])
      | none => processImages rest acc
  | _ :: _, acc => (acc, true)

/-- `MCPServer.parseResponse(feedback)`.  `parsed` models the outcome of
`JSON.parse(feedback)` (`none` = the parse threw).  Inside the `try`,
a text block is pushed when `parsed.text` is truthy, then each element of
`parsed.images` (when it is an array) is processed; any throw falls into
the `catch`, which pushes a text block carrying the raw `feedback`; an
empty `content` array is finally replaced by one empty text block. -/
def parseResponse (feedback : String) (parsed : Option JVal) : List ContentBlock :=
  let run : List ContentBlock × Bool :=
    match parsed with
    | none => ([], true)
    | some p =>
      match jsGet p "text" with
      | AccessResult.throws => ([], true)
      | a =>
        let c1 : List ContentBlock :=
          match a with
          | AccessResult.val tv => if truthy tv then [ContentBlock.text tv] else []
          | _ => []
        match jsGet p "images" with
        | AccessResult.val (JVal.arr xs) => processImages xs c1
        | AccessResult.throws => (c1, true)
        | _ => (c1, false)
  let content :=
    if run.2 then run.1 ++ [ContentBlock.text (JVal.str feedback)] else run.1
  if content.isEmpty then [ContentBlock.text (JVal.str "")] else content

/-! ### Transport Front (stdio wrapper) -/

/-- `POLL_INTERVAL = 500` ms. -/
def POLL_INTERVAL : Nat := 500

/-- `MAX_POLL_TIME = 86400000 * 7` ms (7 days). -/
def MAX_POLL_TIME : Nat := 86400000 * 7

/-- `SOFT_TIMEOUT = 120000` ms (2 minutes). -/
def SOFT_TIMEOUT : Nat := 120000

/-- The actionable message thrown when the refusal budget is exceeded, and
also returned when the initial submit is connection-refused. -/
def extMsg : String := "扩展未启动。请先在 IDE 中打开 Panel Feedback 面板。"

/-- The key substring the wrapper's catch block tests with
`err.message.includes(...)` to decide whether to rethrow. -/
def extKey : String := "扩展未启动"

/-- Message of the dead-end throw after the 7-day `while` loop. -/
def hardMsg : String := "Poll timeout after 7 days"

/-- Whether `text` starts with `pat` (character-exact). -/
def startsWithL : List Char → List Char → Bool
  | [], _ => true
  | _ :: _, [] => false
  | a :: as, b :: bs => a = b && startsWithL as bs

/-- Whether `pat` occurs as a contiguous substring of `text`
(JavaScript `String.prototype.includes`). -/
def hasSub (pat : List Char) : List Char → Bool
  | [] => pat.isEmpty
  | c :: ts => startsWithL pat (c :: ts) || hasSub pat ts

/-- `err.message.includes('扩展未启动')`. -/
def containsKey (m : String) : Bool := hasSub extKey.data m.data

/-- The synthetic soft-timeout text: `Math.round(elapsed / 60000)` minutes
waited, advising another `panel_feedback` invocation. -/
def softText (waitMinutes : Nat) : String :=
  "⏳ 已等待 " ++ toString waitMinutes ++ " 分钟，用户尚未响应。\n\n" ++
  "如需继续等待用户反馈，请再次调用 panel_feedback 工具。\n" ++
  "或者你可以继续其他对话。"

/-- The synthetic soft-timeout result `{content:[{type:'text',text:…}]}`;
`Math.round(e / 60000)` on an integral `e` is `(e + 30000) / 60000`
in natural division. -/
def softData (elapsed : Nat) : ResultData :=
  ⟨[ContentBlock.text (JVal.str (softText ((elapsed + 30000) / 60000)))]⟩

/-- What one `/poll` round trip can produce for the wrapper:
a connection refusal (`resolve({_connectionRefused:true})`), a response
with a non-terminal status (`pending` resets the refusal counter and loops),
a terminal `completed`/`error` status, or a rejected request promise
(socket error other than refusal, the 5 s request timeout, or an
unparsable response body). -/
inductive PollOutcome where
  | refused
  | pending
  | completed (data : ResultData)
  | errorStatus (msg : Option String)
  | reject (msg : String)

/-- One iteration of the poll loop: the outcome of the round trip and the
wall-clock milliseconds the round trip took. -/
structure PollStep where
  outcome : PollOutcome
  duration : Nat

/-- How `pollForResult` ends: a returned terminal payload, the synthetic
soft-timeout return, the thrown refusal-budget message, a rethrown error
whose message contains `extKey`, the thrown post-loop hard timeout, or the
end of the observed execution (`outOfFuel`). -/
inductive PollResult where
  | completed (data : ResultData)
  | soft (data : ResultData)
  | threwBudget
  | rethrown (msg : String)
  | hardTimeout
  | outOfFuel

/-- `result.error || 'Unknown error'` (absent or empty string is falsy). -/
def errText : Option String → String
  | some s => if s.isEmpty then "Unknown error" else s
  | none => "Unknown error"

/-- The `while (Date.now() - startTime < MAX_POLL_TIME)` loop of
`pollForResult`, with `count` the consecutive-refusal counter and
`elapsed` the milliseconds since `startTime` at the loop-condition check.
Each iteration: round trip (advancing `elapsed` by its duration), outcome
handling (refusal increments the counter and throws past 10; any
successful response resets it; `completed` returns; a thrown error whose
message contains `extKey` is rethrown, others are logged and swallowed),
then the soft-timeout check, then the 500 ms sleep. -/
def pollLoop : List PollStep → Nat → Nat → PollResult
  | [], _, elapsed =>
      if MAX_POLL_TIME ≤ elapsed then PollResult.hardTimeout else PollResult.outOfFuel
  | step :: rest, count, elapsed =>
      if MAX_POLL_TIME ≤ elapsed then PollResult.hardTimeout
      else
        let e1 := elapsed + step.duration
        match step.outcome with
        | PollOutcome.refused =>
            if 10 < count + 1 then PollResult.threwBudget
            else if SOFT_TIMEOUT < e1 then PollResult.soft (softData e1)
            else pollLoop rest (count + 1) (e1 + POLL_INTERVAL)
        | PollOutcome.pending =>
            if SOFT_TIMEOUT < e1 then PollResult.soft (softData e1)
            else pollLoop rest 0 (e1 + POLL_INTERVAL)
        | PollOutcome.completed data => PollResult.completed data
        | PollOutcome.errorStatus msg =>
            let m := errText msg
            if containsKey m then PollResult.rethrown m
            else if SOFT_TIMEOUT < e1 then PollResult.soft (softData e1)
            else pollLoop rest 0 (e1 + POLL_INTERVAL)
        | PollOutcome.reject m =>
            if containsKey m then PollResult.rethrown m
            else if SOFT_TIMEOUT < e1 then PollResult.soft (softData e1)
            else pollLoop rest count (e1 + POLL_INTERVAL)

/-- `pollForResult(requestId, targetPort)`: the loop started with a zero
refusal counter and zero elapsed time. -/
def pollForResult (steps : List PollStep) : PollResult := pollLoop steps 0 0

/-- Body of a JSON-RPC reply built by `handleToolCall`:
`{result}` or `{error:{code,message}}`. -/
inductive RpcBody where
  | result (data : ResultData)
  | rpcError (code : Int) (msg : String)

/-- A JSON-RPC reply `{jsonrpc:'2.0', id, …}` (the constant `jsonrpc`
field is left implicit). -/
structure RpcMsg where
  id : JVal
  body : RpcBody

/-- Outcome of the initial `/submit` round trip as seen by
`handleToolCall`: connection refused, a response whose `error` field holds
the given string (the empty string being falsy is skipped), or a normal
acknowledgment. -/
inductive SubmitOutcome where
  | refused
  | errorField (msg : String)
  | accepted

/-- The `try { await pollForResult } catch` phase of `handleToolCall`:
a completed payload or the soft-timeout payload becomes the RPC `result`;
any throw becomes a `-32000` RPC error carrying the thrown message. -/
def pollPhase (id : JVal) (steps : List PollStep) : Option RpcMsg :=
  match pollForResult steps with
  | PollResult.completed data => some ⟨id, RpcBody.result data⟩
  | PollResult.soft data => some ⟨id, RpcBody.result data⟩
  | PollResult.threwBudget => some ⟨id, RpcBody.rpcError (-32000) extMsg⟩
  | PollResult.rethrown m => some ⟨id, RpcBody.rpcError (-32000) m⟩
  | PollResult.hardTimeout => some ⟨id, RpcBody.rpcError (-32000) hardMsg⟩
  | PollResult.outOfFuel => none

/-- `handleToolCall(mcpId, params)`: submit, then poll.  A refused submit
returns the `-32000` activate-the-panel error at once, without any retry;
a truthy `error` field in the submit response is returned as a `-32000`
error; otherwise the poll phase runs. -/
def handleToolCall (id : JVal) (submit : SubmitOutcome) (steps : List PollStep) :
    Option RpcMsg :=
  match submit with
  | SubmitOutcome.refused => some ⟨id, RpcBody.rpcError (-32000) extMsg⟩
  | SubmitOutcome.errorField msg =>
      if msg.isEmpty then pollPhase id steps
      else some ⟨id, RpcBody.rpcError (-32000) msg⟩
  | SubmitOutcome.accepted => pollPhase id steps

/-- The `initialize` reply of the `rl.on('line')` handler. -/
def initializeResponse (id : JVal) : JVal :=
  JVal.obj [("jsonrpc", JVal.str "2.0"), ("id", id),
    ("result", JVal.obj [
      ("protocolVersion", JVal.str "2024-11-05"),
      ("serverInfo", JVal.obj [("name", JVal.str "panel-feedback"),
                               ("version", JVal.str "2.0.0")]),
      ("capabilities", JVal.obj [("tools", JVal.obj [])])])]

/-- The `tools/list` reply of the `rl.on('line')` handler. -/
def toolsListResponse (id : JVal) : JVal :=
  JVal.obj [("jsonrpc", JVal.str "2.0"), ("id", id),
    ("result", JVal.obj [
      ("tools", JVal.arr [JVal.obj [
        ("name", JVal.str "panel_feedback"),
        ("description", JVal.str "在 IDE 侧边栏显示消息并获取用户反馈，支持预定义选项和图片上传"),
        ("inputSchema", JVal.obj [
          ("type", JVal.str "object"),
          ("properties", JVal.obj [
            ("message", JVal.obj [("type", JVal.str "string"),
              ("description", JVal.str "要显示给用户的消息，支持 Markdown 格式")]),
            ("predefined_options", JVal.obj [("type", JVal.str "array"),
              ("items", JVal.obj [("type", JVal.str "string")]),
              ("description", JVal.str "预定义的选项按钮列表")])]),
          ("required", JVal.arr [JVal.str "message"])])]])])]

/-- The catch-all reply `{jsonrpc:'2.0', id, result:{}}`. -/
def rpcEmptyResult (id : JVal) : JVal :=
  JVal.obj [("jsonrpc", JVal.str "2.0"), ("id", id), ("result", JVal.obj [])]

/-- What the `rl.on('line')` handler does with a parsed request line. -/
inductive LineOutcome where
  | send (response : JVal)
  | deferred
  | silent

/-- Method dispatch of the `rl.on('line')` handler on a well-formed line:
`initialize` and `tools/list` reply with their fixed payloads,
`notifications/initialized` emits nothing, `tools/call` with
`params?.name === 'panel_feedback'` defers to `handleToolCall`, and every
other method falls to the final `else`, replying
`{jsonrpc:'2.0', id, result:{}}`.  `paramsName` is `params?.name` when it
is a string. -/
def handleLine (method : String) (paramsName : Option String) (id : JVal) :
    LineOutcome :=
  if method = "initialize" then LineOutcome.send (initializeResponse id)
  else if method = "tools/list" then LineOutcome.send (toolsListResponse id)
  else if method = "notifications/initialized" then LineOutcome.silent
  else if method = "tools/call" ∧ paramsName = some "panel_feedback" then
    LineOutcome.deferred
  else LineOutcome.send (rpcEmptyResult id)

/-! ### Coordination Service (extension-side MCP server) -/

/-- `PendingRequest.status`. -/
inductive Status where
  | pending
  | completed
  | error
  deriving DecidableEq

/-- The `PendingRequest` record of `mcpServer.ts`.  Timestamps are
integers (`Date.now()` values); `now - createdAt` is computed in `Int` to
keep JavaScript subtraction semantics. -/
structure PendingRequest where
  id : String
  params : JVal
  status : Status
  result : Option ResultData
  error : Option String
  createdAt : Int

/-- The `pendingRequests : Map<string, PendingRequest>` as an
insertion-ordered association list with unique keys. -/
abbrev Ledger : Type := List (String × PendingRequest)

/-- `Map.get` on the insertion-ordered entry list. -/
def mapGet : Ledger → String → Option PendingRequest
  | [], _ => none
  | p :: m, k => if p.1 = k then some p.2 else mapGet m k

/-- `Map.set`: replace the entry in place when the key exists (a `Map`
holds at most one entry per key), append at the end otherwise. -/
def mapSet : Ledger → String → PendingRequest → Ledger
  | [], k, v => [(k, v)]
  | p :: m, k, v => if p.1 = k then (k, v) :: m else p :: mapSet m k v

/-- `Map.delete`: remove the entry under the key. -/
def mapDelete : Ledger → String → Ledger
  | [], _ => []
  | p :: m, k => if p.1 = k then mapDelete m k else p :: mapDelete m k

/-- `persistRequests`: the value written to
`globalState.update('pendingRequests', Array.from(map.values()))`. -/
def persistRequests (m : Ledger) : List PendingRequest :=
  List.map (fun p => p.2) m

/-- A `/poll` response: `{status:'pending'}`,
`{status:'completed', data}`, or `{status:'error', error}`. -/
inductive PollResponse where
  | pendingResp
  | completedResp (data : Option ResultData)
  | errorResp (msg : Option String)

/-- The unknown-id response `{status:'error', error:'Request not found'}`. -/
def RequestNotFound : PollResponse :=
  PollResponse.errorResp (some "Request not found")

/-- Effect of one `handlePoll` call: the HTTP response, the ledger
afterwards, and the persisted snapshot when `persistRequests()` ran
(`none` = no persistence write). -/
structure PollReply where
  response : PollResponse
  ledger : Ledger
  persisted : Option (List PendingRequest)

/-- `MCPServer.handlePoll(data)`: unknown id replies `Request not found`;
a terminal entry is returned, deleted, and the ledger persisted; a pending
entry replies `{status:'pending'}` touching nothing. -/
def handlePoll (ledger : Ledger) (requestId : String) : PollReply :=
  match mapGet ledger requestId with
  | none => ⟨RequestNotFound, ledger, none⟩
  | some req =>
    match req.status with
    | Status.completed =>
        let l := mapDelete ledger requestId
        ⟨PollResponse.completedResp req.result, l, some (persistRequests l)⟩
    | Status.error =>
        let l := mapDelete ledger requestId
        ⟨PollResponse.errorResp req.error, l, some (persistRequests l)⟩
    | Status.pending => ⟨PollResponse.pendingResp, ledger, none⟩

/-- A `/submit` response. -/
inductive SubmitResponse where
  | accepted (requestId : String)

/-- Effect of one `handleSubmit` call: the response, the ledger
afterwards, the request handed to `processRequest`, and the persisted
snapshot. -/
structure SubmitReply where
  response : SubmitResponse
  ledger : Ledger
  dispatched : PendingRequest
  persisted : List PendingRequest

/-- `MCPServer.handleSubmit(data)`: unconditionally build a fresh pending
entry with the current timestamp, `set` it (overwriting any entry under
the same id), persist, dispatch it to the panel, and acknowledge. -/
def handleSubmit (ledger : Ledger) (requestId : String) (params : JVal)
    (now : Int) : SubmitReply :=
  let request : PendingRequest :=
    ⟨requestId, params, Status.pending, none, none, now⟩
  let l := mapSet ledger requestId request
  ⟨SubmitResponse.accepted requestId, l, request, persistRequests l⟩

/-- The `processRequest` resolution callback: mark completed and store the
normalized content. -/
def resolveRequest (req : PendingRequest) (feedback : String)
    (parsed : Option JVal) : PendingRequest :=
  { req with status := Status.completed,
             result := some ⟨parseResponse feedback parsed⟩ }

/-- The `processRequest` rejection callback: mark error with the message. -/
def rejectRequest (req : PendingRequest) (msg : String) : PendingRequest :=
  { req with status := Status.error, error := some msg }

/-- `SEVEN_DAYS = 7 * 24 * 60 * 60 * 1000` ms. -/
def SEVEN_DAYS : Int := 7 * 24 * 60 * 60 * 1000

/-- The restore filter of `restorePendingRequests`:
`req.status === 'pending' && (now - req.createdAt) < SEVEN_DAYS`. -/
def keepOnRestore (now : Int) (r : PendingRequest) : Prop :=
  r.status = Status.pending ∧ now - r.createdAt < SEVEN_DAYS

instance (now : Int) (r : PendingRequest) : Decidable (keepOnRestore now r) :=
  inferInstanceAs (Decidable (_ ∧ _))

/-- State built by `restorePendingRequests`: the reconstructed ledger and
the requests re-dispatched to the panel, in iteration order. -/
structure RestoreResult where
  ledger : Ledger
  dispatched : List PendingRequest

/-- One iteration of the `for (const req of stored)` restore loop. -/
def restoreStep (now : Int) (acc : RestoreResult) (r : PendingRequest) :
    RestoreResult :=
  if keepOnRestore now r then
    ⟨mapSet acc.ledger r.id r, acc.dispatched ++ [r]⟩
  else acc

/-- `MCPServer.restorePendingRequests()`: walk the persisted entries,
keeping (and re-dispatching via `processRequest`) exactly those that are
still `pending` and younger than seven days. -/
def restorePendingRequests (now : Int) (stored : List PendingRequest) :
    RestoreResult :=
  stored.foldl (restoreStep now) ⟨[], []⟩

/-- `MCPServer.clearPendingRequests()`. -/
def clearPendingRequests : Ledger × List PendingRequest := ([], [])

/-- The claim that some execution of the poll loop raises the post-loop
hard-timeout error. -/
def hardTimeoutReachable : Prop :=
  ∃ steps : List PollStep, pollForResult steps = PollResult.hardTimeout

/-- A freshly terminal, never-polled ledger entry (age 0 at `now = 0`). -/
def freshTerminal : PendingRequest :=
  ⟨"r1", JVal.obj [], Status.completed,
   some ⟨[ContentBlock.text (JVal.str "done")]⟩, none, 0⟩

/-- A pending entry used as a concrete witness input. -/
def samplePending : PendingRequest :=
  ⟨"r1", JVal.obj [("message", JVal.str "hi")], Status.pending, none, none, 0⟩

/-- A completed entry used as a concrete witness input. -/
def sampleCompleted : PendingRequest :=
  ⟨"r2", JVal.obj [], Status.completed,
   some ⟨[ContentBlock.text (JVal.str "A")]⟩, none, 0⟩

/-- A pending entry older than the retention horizon at `now = 1`. -/
def stalePending : PendingRequest :=
  ⟨"r3", JVal.obj [], Status.pending, none, none, -(7 * 24 * 60 * 60 * 1000)⟩

/-- The raw collaborator resolution used as the concrete C5 input, and its
parsed JSON value. -/
def imgFeedbackRaw : String :=
  "\x7b\"text\":\"\",\"images\":[\"data:image/png;base64,AAAA\"]\x7d"

/-- `JSON.parse imgFeedbackRaw`. -/
def imgFeedbackJson : JVal :=
  JVal.obj [("text", JVal.str ""),
            ("images", JVal.arr [JVal.str "data:image/png;base64,AAAA"])]

/-! ### Association-list map lemmas -/

theorem mapGet_mapDelete_self (m : Ledger) (k : String) :
    mapGet (mapDelete m k) k = none := by
  induction m with
  | nil => rfl
  | cons p m ih =>
      by_cases h : p.1 = k
      · simpa [mapDelete, h] using ih
      · simpa [mapDelete, mapGet, h] using ih

theorem mapGet_mapDelete_ne (m : Ledger) (k k2 : String) (h : k ≠ k2) :
    mapGet (mapDelete m k2) k = mapGet m k := by
  have hk2 : ¬ k2 = k := fun hh => h hh.symm
  induction m with
  | nil => rfl
  | cons p m ih =>
      by_cases hp : p.1 = k2
      · have hpk : ¬ p.1 = k := by rw [hp]; exact hk2
        simpa [mapDelete, mapGet, hp, hpk, hk2] using ih
      · by_cases hk : p.1 = k
        · simp [mapDelete, mapGet, hp, hk, h, hk2]
        · simpa [mapDelete, mapGet, hp, hk, h, hk2] using ih

theorem mapGet_mapSet_self (m : Ledger) (k : String) (v : PendingRequest) :
    mapGet (mapSet m k v) k = some v := by
  induction m with
  | nil => simp [mapSet, mapGet]
  | cons p m ih =>
      by_cases hp : p.1 = k
      · simp [mapSet, mapGet, hp]
      · simpa [mapSet, mapGet, hp] using ih

theorem mapGet_mapSet_ne (m : Ledger) (k k2 : String) (v : PendingRequest)
    (h : k ≠ k2) : mapGet (mapSet m k2 v) k = mapGet m k := by
  have hk2 : ¬ k2 = k := fun hh => h hh.symm
  induction m with
  | nil => simp [mapSet, mapGet, hk2]
  | cons p m ih =>
      by_cases hp : p.1 = k2
      · have hpk : ¬ p.1 = k := by rw [hp]; exact hk2
        simp [mapSet, mapGet, hp, hpk, hk2]
      · by_cases hk : p.1 = k
        · simp [mapSet, mapGet, hp, hk, h, hk2]
        · simpa [mapSet, mapGet, hp, hk, h, hk2] using ih

theorem mem_mapSet (m : Ledger) (k : String) (v : PendingRequest)
    (p : String × PendingRequest) (h : p ∈ mapSet m k v) :
    p ∈ m ∨ p = (k, v) := by
  induction m with
  | nil => simpa [mapSet] using h
  | cons q m ih =>
      by_cases hq : q.1 = k
      · simp only [mapSet, hq, if_pos, List.mem_cons] at h
        rcases h with h | h
        · right; exact h
        · left; exact List.mem_cons_of_mem _ h
      · simp only [mapSet, hq, if_neg, not_false_iff, List.mem_cons] at h
        rcases h with h | h
        · left; exact h ▸ List.mem_cons_self _ _
        · rcases ih h with hh | hh
          · left; exact List.mem_cons_of_mem _ hh
          · right; exact hh

/-! ### Restore-loop lemmas -/

theorem restore_dispatched (now : Int) (stored : List PendingRequest) :
    ∀ acc : RestoreResult,
      (stored.foldl (restoreStep now) acc).dispatched
        = acc.dispatched ++ stored.filter (fun r => keepOnRestore now r) := by
  induction stored with
  | nil => intro acc; simp
  | cons r rest ih =>
      intro acc
      by_cases h : keepOnRestore now r
      · simp [List.foldl_cons, restoreStep, h, List.filter_cons, ih]
      · simp [List.foldl_cons, restoreStep, h, List.filter_cons, ih]

theorem mem_restore_ledger (now : Int) (stored : List PendingRequest) :
    ∀ (acc : RestoreResult) (p : String × PendingRequest),
      p ∈ (stored.foldl (restoreStep now) acc).ledger →
      p ∈ acc.ledger ∨ ∃ q, q ∈ stored ∧ keepOnRestore now q ∧ p = (q.id, q) := by
  induction stored with
  | nil => intro acc p h; left; simpa using h
  | cons r rest ih =>
      intro acc p h
      rw [List.foldl_cons] at h
      by_cases hk : keepOnRestore now r
      · rcases ih _ p h with hh | ⟨q, hq, hkq, hpe⟩
        · rcases mem_mapSet _ _ _ _ (by simpa [restoreStep, hk] using hh) with h1 | h1
          · left; exact h1
          · right; exact ⟨r, List.mem_cons_self _ _, hk, h1⟩
        · right; exact ⟨q, List.mem_cons_of_mem _ hq, hkq, hpe⟩
      · rcases ih _ p h with hh | ⟨q, hq, hkq, hpe⟩
        · left; simpa [restoreStep, hk] using hh
        · right; exact ⟨q, List.mem_cons_of_mem _ hq, hkq, hpe⟩

theorem restore_get_untouched (now : Int) (k : String) :
    ∀ (stored : List PendingRequest) (acc : RestoreResult),
      (∀ q ∈ stored, q.id ≠ k) →
      mapGet (stored.foldl (restoreStep now) acc).ledger k = mapGet acc.ledger k := by
  intro stored
  induction stored with
  | nil => intro acc _; rfl
  | cons r rest ih =>
      intro acc hall
      have hr : r.id ≠ k := hall r (List.mem_cons_self _ _)
      have hrest : ∀ q ∈ rest, q.id ≠ k := fun q hq => hall q (List.mem_cons_of_mem _ hq)
      by_cases hk : keepOnRestore now r
      · rw [List.foldl_cons, ih _ hrest]
        simp [restoreStep, hk, mapGet_mapSet_ne _ _ _ _ (fun hh => hr hh.symm)]
      · rw [List.foldl_cons, ih _ hrest]
        simp [restoreStep, hk]

theorem restore_get_of_nodup (now : Int) :
    ∀ (stored : List PendingRequest) (acc : RestoreResult) (r : PendingRequest),
      (stored.map (fun q => q.id)).Nodup → r ∈ stored → keepOnRestore now r →
      mapGet (stored.foldl (restoreStep now) acc).ledger r.id = some r := by
  intro stored
  induction stored with
  | nil => intro acc r _ hr; cases hr
  | cons q rest ih =>
      intro acc r hnd hr hk
      simp only [List.map_cons, List.nodup_cons] at hnd
      rcases List.mem_cons.mp hr with he | hmem
      · subst he
        have hall : ∀ p ∈ rest, p.id ≠ r.id := by
          intro p hp hee
          exact hnd.1 (hee ▸ List.mem_map_of_mem _ hp)
        rw [List.foldl_cons, restore_get_untouched now r.id rest _ hall]
        simp [restoreStep, hk, mapGet_mapSet_self]
      · exact ih _ r hnd.2 hmem hk

/-! ### Poll-loop lemmas -/

theorem pollLoop_ne_hardTimeout :
    ∀ (steps : List PollStep) (count elapsed : Nat),
      elapsed ≤ SOFT_TIMEOUT + POLL_INTERVAL →
      pollLoop steps count elapsed ≠ PollResult.hardTimeout := by
  intro steps
  induction steps with
  | nil =>
      intro count elapsed h
      have hlt : ¬ MAX_POLL_TIME ≤ elapsed := by
        simp only [MAX_POLL_TIME, SOFT_TIMEOUT, POLL_INTERVAL] at h ⊢
        omega
      simp [pollLoop, hlt]
  | cons step rest ih =>
      intro count elapsed h
      have hlt : ¬ MAX_POLL_TIME ≤ elapsed := by
        simp only [MAX_POLL_TIME, SOFT_TIMEOUT, POLL_INTERVAL] at h ⊢
        omega
      obtain ⟨outcome, d⟩ := step
      have hnext : ¬ SOFT_TIMEOUT < elapsed + d →
          elapsed + d + POLL_INTERVAL ≤ SOFT_TIMEOUT + POLL_INTERVAL := by
        intro hs
        simp only [SOFT_TIMEOUT, POLL_INTERVAL] at hs ⊢
        omega
      cases outcome with
      | refused =>
          simp only [pollLoop, if_neg hlt]
          by_cases hb : 10 < count + 1
          · simp [hb]
          · by_cases hs : SOFT_TIMEOUT < elapsed + d
            · simp [hb, hs]
            · simpa [hb, hs] using ih _ _ (hnext hs)
      | pending =>
          simp only [pollLoop, if_neg hlt]
          by_cases hs : SOFT_TIMEOUT < elapsed + d
          · simp [hs]
          · simpa [hs] using ih _ _ (hnext hs)
      | completed data => simp [pollLoop, hlt]
      | errorStatus msg =>
          simp only [pollLoop, if_neg hlt]
          by_cases hc : containsKey (errText msg)
          · simp [hc]
          · by_cases hs : SOFT_TIMEOUT < elapsed + d
            · simp [hc, hs]
            · simpa [hc, hs] using ih _ _ (hnext hs)
      | reject m =>
          simp only [pollLoop, if_neg hlt]
          by_cases hc : containsKey m
          · simp [hc]
          · by_cases hs : SOFT_TIMEOUT < elapsed + d
            · simp [hc, hs]
            · simpa [hc, hs] using ih _ _ (hnext hs)

theorem pollLoop_pending_soft (rest : List PollStep) (count elapsed d : Nat)
    (h1 : ¬ MAX_POLL_TIME ≤ elapsed) (h2 : SOFT_TIMEOUT < elapsed + d) :
    pollLoop (⟨PollOutcome.pending, d⟩ :: rest) count elapsed
      = PollResult.soft (softData (elapsed + d)) := by
  simp [pollLoop, h1, h2]

/-! ### Claim theorems -/

/-- C1 (counterexample): the claim says a connection-refused initial submit
POST is treated as transient and retried silently; in `handleToolCall` a
refused submit returns the `-32000` activate-the-panel error at once, with
no retry — even when the very next round trip would have delivered a
completed result. -/
theorem initial_submit_refusal_errors_immediately :
    handleToolCall (JVal.num 1) SubmitOutcome.refused
        [⟨PollOutcome.completed ⟨[ContentBlock.text (JVal.str "A")]⟩, 0⟩]
      = some ⟨JVal.num 1, RpcBody.rpcError (-32000) extMsg⟩ := rfl

/-- C1 (amended): a refusal on the initial submit POST fails immediately
with the activate-the-panel error; only refusals inside the poll loop are
treated as transient and retried silently, escalating to that error only
once more than 10 consecutive refusals have been seen (10 consecutive
refusals stay silent, an 11th escalates). -/
theorem initial_refusal_immediate_loop_refusals_budgeted :
    (∀ (id : JVal) (steps : List PollStep),
        handleToolCall id SubmitOutcome.refused steps
          = some ⟨id, RpcBody.rpcError (-32000) extMsg⟩) ∧
    pollForResult (List.replicate 10 ⟨PollOutcome.refused, 0⟩)
        = PollResult.outOfFuel ∧
    pollForResult (List.replicate 11 ⟨PollOutcome.refused, 0⟩)
        = PollResult.threwBudget :=
  ⟨fun _ _ => rfl, rfl, rfl⟩

/-- C2 (counterexample): the claim asserts some execution of the poll loop
actually raises the 7-day hard-timeout error; no execution does — the
soft-timeout return at 2 minutes fires on every iteration first, so the
post-loop throw is unreachable from the loop's initial state. -/
theorem hard_timeout_unreachable : ¬ hardTimeoutReachable := by
  rintro ⟨steps, hs⟩
  exact pollLoop_ne_hardTimeout steps 0 0 (Nat.zero_le _) hs

/-- C2 (amended): the hard-timeout branch is dead code: for every
execution of `pollForResult` (any sequence of poll outcomes and HTTP
round-trip durations, with the 500 ms sleep advancing time by its nominal
amount), the hard-timeout error is never raised; a call whose poll loop
never observes a terminal status returns the synthetic soft-timeout
result instead. -/
theorem poll_never_hard_timeout :
    ∀ steps : List PollStep, pollForResult steps ≠ PollResult.hardTimeout :=
  fun steps => pollLoop_ne_hardTimeout steps 0 0 (Nat.zero_le _)

/-- C3: once elapsed polling time exceeds the 2-minute soft threshold, a
still-pending request makes `pollForResult` return the synthetic
soft-timeout payload — a single text block advising re-invocation — which
`handleToolCall` wraps as an RPC `result`, not an error; and on the
Coordination Service a poll of a pending entry replies `{status:pending}`
with the ledger unchanged and no persistence write, so the entry remains
pending server-side. -/
theorem soft_timeout_synthetic_result_entry_pending :
    (∀ (rest : List PollStep) (count elapsed d : Nat),
        ¬ MAX_POLL_TIME ≤ elapsed → SOFT_TIMEOUT < elapsed + d →
        pollLoop (⟨PollOutcome.pending, d⟩ :: rest) count elapsed
          = PollResult.soft (softData (elapsed + d))) ∧
    (∀ (id : JVal) (steps : List PollStep) (data : ResultData),
        pollForResult steps = PollResult.soft data →
        handleToolCall id SubmitOutcome.accepted steps
          = some ⟨id, RpcBody.result data⟩) ∧
    (∀ e : Nat, softData e
        = ⟨[ContentBlock.text (JVal.str (softText ((e + 30000) / 60000)))]⟩) ∧
    (∀ (ledger : Ledger) (rid : String) (req : PendingRequest),
        mapGet ledger rid = some req → req.status = Status.pending →
        handlePoll ledger rid = ⟨PollResponse.pendingResp, ledger, none⟩) := by
  refine ⟨pollLoop_pending_soft, ?_, fun e => rfl, ?_⟩
  · intro id steps data h
    simp [handleToolCall, pollPhase, h]
  · intro ledger rid req hm hst
    simp [handlePoll, hm, hst]

theorem soft_timeout_synthetic_result_entry_pending_witness :
    pollLoop [⟨PollOutcome.pending, 120001⟩] 0 0
        = PollResult.soft (softData 120001) ∧
    handleToolCall (JVal.num 1) SubmitOutcome.accepted
        [⟨PollOutcome.pending, 120001⟩]
        = some ⟨JVal.num 1, RpcBody.result (softData 120001)⟩ ∧
    handlePoll [("r1", samplePending)] "r1"
        = ⟨PollResponse.pendingResp, [("r1", samplePending)], none⟩ :=
  ⟨soft_timeout_synthetic_result_entry_pending.1 [] 0 0 120001
      (by decide) (by decide),
   soft_timeout_synthetic_result_entry_pending.2.1 (JVal.num 1)
      [⟨PollOutcome.pending, 120001⟩] (softData 120001) rfl,
   soft_timeout_synthetic_result_entry_pending.2.2.2
      [("r1", samplePending)] "r1" samplePending rfl rfl⟩

/-- C4: a poll of a terminal entry returns the stored payload (or carried
error message) and deletes the entry, persisting the shrunken ledger; the
next poll of the same id — and any poll of an id with no entry — replies
`Request not found`. -/
theorem poll_single_consumption :
    ∀ (ledger : Ledger) (rid : String) (req : PendingRequest),
      (mapGet ledger rid = none →
        handlePoll ledger rid = ⟨RequestNotFound, ledger, none⟩) ∧
      (mapGet ledger rid = some req → req.status = Status.completed →
        handlePoll ledger rid
          = ⟨PollResponse.completedResp req.result, mapDelete ledger rid,
             some (persistRequests (mapDelete ledger rid))⟩ ∧
        handlePoll (mapDelete ledger rid) rid
          = ⟨RequestNotFound, mapDelete ledger rid, none⟩) ∧
      (mapGet ledger rid = some req → req.status = Status.error →
        handlePoll ledger rid
          = ⟨PollResponse.errorResp req.error, mapDelete ledger rid,
             some (persistRequests (mapDelete ledger rid))⟩ ∧
        handlePoll (mapDelete ledger rid) rid
          = ⟨RequestNotFound, mapDelete ledger rid, none⟩) := by
  intro ledger rid req
  refine ⟨?_, ?_, ?_⟩
  · intro h; simp [handlePoll, h]
  · intro hm hst
    exact ⟨by simp [handlePoll, hm, hst],
           by simp [handlePoll, mapGet_mapDelete_self]⟩
  · intro hm hst
    exact ⟨by simp [handlePoll, hm, hst],
           by simp [handlePoll, mapGet_mapDelete_self]⟩

theorem poll_single_consumption_witness :
    handlePoll [("r2", sampleCompleted)] "r2"
        = ⟨PollResponse.completedResp sampleCompleted.result,
           mapDelete [("r2", sampleCompleted)] "r2",
           some (persistRequests (mapDelete [("r2", sampleCompleted)] "r2"))⟩ ∧
    handlePoll (mapDelete [("r2", sampleCompleted)] "r2") "r2"
        = ⟨RequestNotFound, mapDelete [("r2", sampleCompleted)] "r2", none⟩ :=
  (poll_single_consumption [("r2", sampleCompleted)] "r2" sampleCompleted).2.1
    rfl rfl

theorem processImages_strings (imgs : List String) :
    ∀ acc, processImages (imgs.map JVal.str) acc
      = (acc ++ imgs.filterMap imageBlockOf, false) := by
  induction imgs with
  | nil => intro acc; simp [processImages]
  | cons s rest ih =>
      intro acc
      cases h : dataUriMatch s with
      | none =>
          simp [processImages, h, ih, imageBlockOf, List.filterMap_cons]
      | some mp =>
          simp [processImages, h, ih, imageBlockOf, List.filterMap_cons]

theorem ite_isEmpty_ne_nil (l : List ContentBlock) (b : ContentBlock) :
    (if l.isEmpty then [b] else l) ≠ [] := by
  cases l with
  | nil => simp
  | cons x xs => simp

/-- C5 (counterexample): the claim says a resolution parsing as a JSON
object with `text` and `images` stores one text block plus one image block
per image; for `{"text":"","images":["data:image/png;base64,AAAA"]}` the
code skips the falsy empty `text` and stores only the image block — one
block, not the claimed two. -/
theorem parse_response_falsy_text_counterexample :
    parseResponse imgFeedbackRaw (some imgFeedbackJson)
        = [ContentBlock.image "AAAA" "image/png"] ∧
    [ContentBlock.image "AAAA" "image/png"]
        ≠ [ContentBlock.text (JVal.str ""),
           ContentBlock.image "AAAA" "image/png"] :=
  ⟨rfl, fun h => absurd (congrArg List.length h) (by decide)⟩

/-- C5 (amended): when the resolution parses as a JSON object whose `text`
is a non-empty string, the stored content is one text block plus one image
block per `images` element matching the data-URI pattern (non-matching
strings are skipped); when JSON parsing throws, the resolution is treated
as plain text, one text block carrying it; an empty resolution yields
exactly one empty text block; the content is never empty. -/
theorem parse_response_shapes :
    (∀ (fb t : String) (imgs : List String), t.isEmpty = false →
        parseResponse fb (some (JVal.obj
            [("text", JVal.str t), ("images", JVal.arr (imgs.map JVal.str))]))
          = ContentBlock.text (JVal.str t) :: imgs.filterMap imageBlockOf) ∧
    (∀ fb : String, parseResponse fb none = [ContentBlock.text (JVal.str fb)]) ∧
    (∀ (fb : String) (parsed : Option JVal), parseResponse fb parsed ≠ []) ∧
    parseResponse "" none = [ContentBlock.text (JVal.str "")] := by
  refine ⟨?_, fun fb => rfl, ?_, rfl⟩
  · intro fb t imgs ht
    simp [parseResponse, jsGet, truthy, ht, processImages_strings]
  · intro fb parsed
    exact ite_isEmpty_ne_nil _ _

theorem parse_response_shapes_witness :
    "ok".isEmpty = false ∧
    parseResponse "\x7b\x7d" (some (JVal.obj
        [("text", JVal.str "ok"),
         ("images", JVal.arr (["data:image/png;base64,AAAA"].map JVal.str))]))
      = ContentBlock.text (JVal.str "ok")
          :: ["data:image/png;base64,AAAA"].filterMap imageBlockOf :=
  ⟨rfl, parse_response_shapes.1 "\x7b\x7d" "ok" ["data:image/png;base64,AAAA"] rfl⟩

/-- C6 (counterexample): the claim says a terminal never-polled entry
younger than the retention horizon survives a Coordination Service
restart; `restorePendingRequests` only restores entries whose status is
still `pending`, so a freshly completed, never-polled entry (age 0) is
gone from the rebuilt ledger. -/
theorem fresh_terminal_dropped_on_restart :
    freshTerminal.status = Status.completed ∧
    (0 : Int) - freshTerminal.createdAt < SEVEN_DAYS ∧
    mapGet (restorePendingRequests 0 [freshTerminal]).ledger "r1" = none :=
  ⟨rfl, by decide, rfl⟩

/-- C6 (amended): within a run a terminal never-polled entry persists —
polls of other ids and submits under other ids leave it in place — but a
Coordination Service restart discards every persisted terminal entry,
whatever its age, restoring (and re-dispatching) only `pending` entries
younger than the 7-day horizon. -/
theorem terminal_entries_not_restored :
    (∀ (now : Int) (stored : List PendingRequest) (r : PendingRequest),
        r ∈ stored → r.status ≠ Status.pending →
        (r.id, r) ∉ (restorePendingRequests now stored).ledger ∧
        r ∉ (restorePendingRequests now stored).dispatched) ∧
    (∀ (ledger : Ledger) (rid rid2 : String), rid ≠ rid2 →
        mapGet (handlePoll ledger rid2).ledger rid = mapGet ledger rid) ∧
    (∀ (ledger : Ledger) (rid rid2 : String) (params : JVal) (now : Int),
        rid ≠ rid2 →
        mapGet (handleSubmit ledger rid2 params now).ledger rid
          = mapGet ledger rid) := by
  refine ⟨?_, ?_, ?_⟩
  · intro now stored r hmem hstat
    constructor
    · intro hin
      rcases mem_restore_ledger now stored ⟨[], []⟩ _ hin with hh | ⟨q, _, hkq, hpe⟩
      · cases hh
      · have hrq : r = q := congrArg Prod.snd hpe
        subst hrq
        exact hstat hkq.1
    · intro hin
      rw [restorePendingRequests, restore_dispatched] at hin
      simp only [List.nil_append] at hin
      exact hstat (of_decide_eq_true (List.mem_filter.mp hin).2).1
  · intro ledger rid rid2 hne
    cases hm : mapGet ledger rid2 with
    | none => simp [handlePoll, hm]
    | some req =>
        cases hst : req.status with
        | pending => simp [handlePoll, hm, hst]
        | completed => simp [handlePoll, hm, hst, mapGet_mapDelete_ne _ _ _ hne]
        | error => simp [handlePoll, hm, hst, mapGet_mapDelete_ne _ _ _ hne]
  · intro ledger rid rid2 params now hne
    simp [handleSubmit, mapGet_mapSet_ne _ _ _ _ hne]

theorem terminal_entries_not_restored_witness :
    ((freshTerminal.id, freshTerminal)
        ∉ (restorePendingRequests 0 [freshTerminal]).ledger ∧
      freshTerminal ∉ (restorePendingRequests 0 [freshTerminal]).dispatched) ∧
    mapGet (handlePoll [("r1", samplePending)] "zz").ledger "r1"
        = mapGet [("r1", samplePending)] "r1" :=
  ⟨terminal_entries_not_restored.1 0 [freshTerminal] freshTerminal
      (List.mem_cons_self _ _) (by decide),
   terminal_entries_not_restored.2.1 [("r1", samplePending)] "r1" "zz"
      (by decide)⟩

/-- C7: on restart, every persisted `pending` entry younger than the 7-day
horizon is put back in the ledger and re-dispatched to the panel, and
every persisted entry strictly older than the horizon is dropped and not
re-dispatched (ids are unique in a persisted `Map` dump, hence the
`Nodup` hypothesis). -/
theorem restart_restores_young_pending_drops_old :
    ∀ (now : Int) (stored : List PendingRequest) (r : PendingRequest),
      (stored.map (fun q => q.id)).Nodup →
      (r ∈ stored → r.status = Status.pending →
        now - r.createdAt < SEVEN_DAYS →
        mapGet (restorePendingRequests now stored).ledger r.id = some r ∧
        r ∈ (restorePendingRequests now stored).dispatched) ∧
      (r ∈ stored → SEVEN_DAYS < now - r.createdAt →
        (r.id, r) ∉ (restorePendingRequests now stored).ledger ∧
        r ∉ (restorePendingRequests now stored).dispatched) := by
  intro now stored r hnd
  constructor
  · intro hmem hp hage
    constructor
    · exact restore_get_of_nodup now stored ⟨[], []⟩ r hnd hmem ⟨hp, hage⟩
    · rw [restorePendingRequests, restore_dispatched]
      simp only [List.nil_append]
      exact List.mem_filter.mpr ⟨hmem, decide_eq_true ⟨hp, hage⟩⟩
  · intro hmem hage
    have hnk : ¬ keepOnRestore now r := fun hk => by
      have := hk.2
      omega
    constructor
    · intro hin
      rcases mem_restore_ledger now stored ⟨[], []⟩ _ hin with hh | ⟨q, _, hkq, hpe⟩
      · cases hh
      · have hrq : r = q := congrArg Prod.snd hpe
        subst hrq
        exact hnk hkq
    · intro hin
      rw [restorePendingRequests, restore_dispatched] at hin
      simp only [List.nil_append] at hin
      exact hnk (of_decide_eq_true (List.mem_filter.mp hin).2)

theorem restart_restores_young_pending_drops_old_witness :
    (mapGet (restorePendingRequests 1 [samplePending, stalePending]).ledger
        samplePending.id = some samplePending ∧
      samplePending
        ∈ (restorePendingRequests 1 [samplePending, stalePending]).dispatched) ∧
    ((stalePending.id, stalePending)
        ∉ (restorePendingRequests 1 [samplePending, stalePending]).ledger ∧
      stalePending
        ∉ (restorePendingRequests 1 [samplePending, stalePending]).dispatched) :=
  ⟨(restart_restores_young_pending_drops_old 1 [samplePending, stalePending]
        samplePending (by decide)).1
      (List.mem_cons_self _ _) rfl (by decide),
   (restart_restores_young_pending_drops_old 1 [samplePending, stalePending]
        stalePending (by decide)).2
      (List.mem_cons_of_mem _ (List.mem_cons_self _ _)) (by decide)⟩

/-- C8: a submit whose requestId already has a ledger entry neither fails
nor deduplicates: the entry is replaced by a fresh pending one built from
the new params and timestamp (the prior status, stored result and error
are discarded), the ledger is persisted, the fresh request is dispatched
to the panel again, and the response is `accepted`. -/
theorem resubmit_replaces_entry :
    ∀ (ledger : Ledger) (rid : String) (params : JVal) (now : Int)
      (old : PendingRequest), mapGet ledger rid = some old →
      (handleSubmit ledger rid params now).response
          = SubmitResponse.accepted rid ∧
      mapGet (handleSubmit ledger rid params now).ledger rid
          = some ⟨rid, params, Status.pending, none, none, now⟩ ∧
      (handleSubmit ledger rid params now).dispatched
          = ⟨rid, params, Status.pending, none, none, now⟩ ∧
      (handleSubmit ledger rid params now).persisted
          = persistRequests (handleSubmit ledger rid params now).ledger := by
  intro ledger rid params now old _
  exact ⟨rfl, mapGet_mapSet_self ledger rid _, rfl, rfl⟩

theorem resubmit_replaces_entry_witness :
    (handleSubmit [("r1", samplePending)] "r1" JVal.null 5).response
        = SubmitResponse.accepted "r1" ∧
    mapGet (handleSubmit [("r1", samplePending)] "r1" JVal.null 5).ledger "r1"
        = some ⟨"r1", JVal.null, Status.pending, none, none, 5⟩ ∧
    (handleSubmit [("r1", samplePending)] "r1" JVal.null 5).dispatched
        = ⟨"r1", JVal.null, Status.pending, none, none, 5⟩ ∧
    (handleSubmit [("r1", samplePending)] "r1" JVal.null 5).persisted
        = persistRequests (handleSubmit [("r1", samplePending)] "r1" JVal.null 5).ledger :=
  resubmit_replaces_entry [("r1", samplePending)] "r1" JVal.null 5
    samplePending rfl

/-- C9: a poll of a pending entry replies `{status:'pending'}` and is pure
on the server state: the returned ledger is the very same list (nothing
inserted, deleted or mutated) and no persistence write happens. -/
theorem poll_pending_is_pure :
    ∀ (ledger : Ledger) (rid : String) (req : PendingRequest),
      mapGet ledger rid = some req → req.status = Status.pending →
      (handlePoll ledger rid).response = PollResponse.pendingResp ∧
      (handlePoll ledger rid).ledger = ledger ∧
      (handlePoll ledger rid).persisted = none := by
  intro ledger rid req hm hst
  refine ⟨?_, ?_, ?_⟩ <;> simp [handlePoll, hm, hst]

theorem poll_pending_is_pure_witness :
    (handlePoll [("r1", samplePending)] "r1").response
        = PollResponse.pendingResp ∧
    (handlePoll [("r1", samplePending)] "r1").ledger = [("r1", samplePending)] ∧
    (handlePoll [("r1", samplePending)] "r1").persisted = none :=
  poll_pending_is_pure [("r1", samplePending)] "r1" samplePending rfl rfl

/-- C10: a well-formed request line whose method is none of `initialize`,
`tools/list`, `notifications/initialized`, nor `tools/call` targeting the
`panel_feedback` tool, falls to the dispatcher's final `else` and is
answered with `{jsonrpc:'2.0', id, result:{}}` — an empty success result,
never an unknown-method error. -/
theorem unknown_method_empty_result :
    ∀ (method : String) (paramsName : Option String) (id : JVal),
      method ≠ "initialize" → method ≠ "tools/list" →
      method ≠ "notifications/initialized" →
      ¬ (method = "tools/call" ∧ paramsName = some "panel_feedback") →
      handleLine method paramsName id = LineOutcome.send (rpcEmptyResult id) := by
  intro method pn id h1 h2 h3 h4
  simp only [handleLine, if_neg h1, if_neg h2, if_neg h3, if_neg h4]

theorem unknown_method_empty_result_witness :
    handleLine "resources/list" none (JVal.num 7)
      = LineOutcome.send (rpcEmptyResult (JVal.num 7)) :=
  unknown_method_empty_result "resources/list" none (JVal.num 7)
    (by decide) (by decide) (by decide) (by decide)
